import Mathlib

/-!
Shallow embedding of the two MPMC queues of storm-cpp-utilities
(src/containers/mpmc_queue.hpp and src/containers/mpmc_semaphore_queue.hpp).

Both classes wrap a `std::queue<T>` (front at the head, push at the back).
The mutex and the condition variable / semaphore carry no data beyond the
semaphore's counter, so a queue state is the buffer (a `List`), plus, for
the semaphore variant, the semaphore's current permit count (a `Nat`).

The removal operations are modelled in the single-threaded (no concurrent
access) semantics: a condition-variable wait whose predicate is false, or a
semaphore acquire with no permit, can only time out (bounded waits) or
block forever (unbounded waits), since no other thread will change the
state. An outer `Option` marks calls that do not complete normally:
`q.front()` on an empty `std::queue` (undefined behavior), or an unbounded
wait that blocks forever.
-/

/-- State of `storm::mpmc_queue` (mpmc_queue.hpp line 240): the wrapped
`std::queue<T, Container> q`, front of the queue at the head of the list. -/
structure mpmc_queue (α : Type) where
  q : List α
deriving DecidableEq

/-- The default-constructed `mpmc_queue` (line 59): an empty buffer. -/
def mpmc_queue.init {α : Type} : mpmc_queue α := ⟨[]⟩

/-- `push(const T &t)` (lines 74-82): `q.push(t)` under the lock, then
`cv.notify_one()` after the lock is released. -/
def mpmc_queue.push {α : Type} (s : mpmc_queue α) (t : α) : mpmc_queue α :=
  ⟨s.q ++ [t]⟩

/-- Modelled from the spec: "push(move value): appends to the buffer under
the write lock" -- the moved-in value is appended at the back. The source's
`push(T &&T)` (lines 84-91) declares its parameter as `T`, shadowing the
template parameter, and its body pushes the undeclared name `t`, so the
member is ill-formed and has no behavior of its own to embed. -/
def mpmc_queue.push_move {α : Type} (s : mpmc_queue α) (t : α) : mpmc_queue α :=
  ⟨s.q ++ [t]⟩

/-- `emplace(Args&&... args)` (lines 94-102): `q.emplace(...)` constructs
one element at the back under the lock; the element the constructor
arguments produce is taken as given. `cv.notify_one()` runs while the
`lock_guard` is still alive (see `emplace_events`). -/
def mpmc_queue.emplace {α : Type} (s : mpmc_queue α) (t : α) : mpmc_queue α :=
  ⟨s.q ++ [t]⟩

/-- `try_pop()` (lines 105-115): under the lock, return the empty optional
if `q` is empty, else move out `q.front()` and `q.pop()`. -/
def mpmc_queue.try_pop {α : Type} (s : mpmc_queue α) : Option α × mpmc_queue α :=
  match s.q with
  | [] => (none, s)
  | x :: rest => (some x, ⟨rest⟩)

/-- `pop_wait()` (lines 118-127): `cv.wait(lk, q not empty)`, then move out
`q.front()` and `q.pop()`. With no other thread, a wait on an empty buffer
never returns: `none` marks that the call blocks forever. -/
def mpmc_queue.pop_wait {α : Type} (s : mpmc_queue α) : Option (α × mpmc_queue α) :=
  match s.q with
  | [] => none
  | x :: rest => some (x, ⟨rest⟩)

/-- `pop_wait_for(rel_time)` (lines 137-148): `cv.wait_for` with the same
predicate; with no other thread the predicate holds now or at timeout the
buffer is still empty, so the call times out (returning the empty optional,
state untouched) exactly when the buffer is empty. -/
def mpmc_queue.pop_wait_for {α : Type} (s : mpmc_queue α) : Option α × mpmc_queue α :=
  match s.q with
  | [] => (none, s)
  | x :: rest => (some x, ⟨rest⟩)

/-- `pop_wait_until(timeout_time)` (lines 158-169): same structure as
`pop_wait_for`, with an absolute deadline. -/
def mpmc_queue.pop_wait_until {α : Type} (s : mpmc_queue α) : Option α × mpmc_queue α :=
  match s.q with
  | [] => (none, s)
  | x :: rest => (some x, ⟨rest⟩)

/-- `empty()` (lines 176-179): `q.empty()` under a shared lock. -/
def mpmc_queue.empty {α : Type} (s : mpmc_queue α) : Bool :=
  s.q.isEmpty

/-- `size()` (lines 186-189): `q.size()` under a shared lock. -/
def mpmc_queue.size {α : Type} (s : mpmc_queue α) : Nat :=
  s.q.length

/-- `swap(mpmc_queue &other)` (lines 206-228): under both locks,
`q.swap(other.q)`; afterwards both condition variables get `notify_all()`. -/
def mpmc_queue.swap {α : Type} (a b : mpmc_queue α) : mpmc_queue α × mpmc_queue α :=
  (⟨b.q⟩, ⟨a.q⟩)

/-- `storm::swap(lhs, rhs)` (lines 244-248): calls `lhs.swap(rhs)`. -/
def storm_swap {α : Type} (a b : mpmc_queue α) : mpmc_queue α × mpmc_queue α :=
  mpmc_queue.swap a b

/-- State of `storm::mpmc_semaphore_queue`: the wrapped queue `q`
(mpmc_semaphore_queue.hpp line 221) and the current permit count of the
`std::counting_semaphore available` (line 214). -/
structure mpmc_semaphore_queue (α : Type) where
  q : List α
  available : Nat
deriving DecidableEq

/-- The constructor (line 65): `available(0)` and an empty buffer. -/
def mpmc_semaphore_queue.init {α : Type} : mpmc_semaphore_queue α := ⟨[], 0⟩

/-- `push(const T &t)` (lines 80-88): `q.push(t)` under the lock, then
`available.release()` adds one permit. -/
def mpmc_semaphore_queue.push {α : Type} (s : mpmc_semaphore_queue α) (t : α) :
    mpmc_semaphore_queue α :=
  ⟨s.q ++ [t], s.available + 1⟩

/-- `push(T &&t)` (lines 90-97): same as `push` with the value moved in. -/
def mpmc_semaphore_queue.push_move {α : Type} (s : mpmc_semaphore_queue α) (t : α) :
    mpmc_semaphore_queue α :=
  ⟨s.q ++ [t], s.available + 1⟩

/-- `emplace(Args&&... args)` (lines 100-108): `q.emplace(...)` under the
lock, then `available.release()`. -/
def mpmc_semaphore_queue.emplace {α : Type} (s : mpmc_semaphore_queue α) (t : α) :
    mpmc_semaphore_queue α :=
  ⟨s.q ++ [t], s.available + 1⟩

/-- `try_pop()` (lines 111-123), exactly as written in the source:
`if(available.try_acquire()) return std::optional<T>();` -- when the
non-blocking acquire SUCCEEDS (a permit was available; it is consumed) the
function returns the empty optional; only when the acquire FAILS does it
fall through, take the lock, and move out `q.front()` then `q.pop()`.
The outer `none` marks undefined behavior: `q.front()` on an empty buffer. -/
def mpmc_semaphore_queue.try_pop {α : Type} (s : mpmc_semaphore_queue α) :
    Option (Option α × mpmc_semaphore_queue α) :=
  if 0 < s.available then
    some (none, ⟨s.q, s.available - 1⟩)
  else
    match s.q with
    | [] => none
    | x :: rest => some (some x, ⟨rest, s.available⟩)

/-- `pop_wait()` (lines 126-137): `available.acquire()` blocks until a
permit is available and consumes it, then under the lock moves out
`q.front()` and `q.pop()`. With no other thread, `none` marks a call that
blocks forever (no permit) or hits undefined behavior (permit but empty
buffer). -/
def mpmc_semaphore_queue.pop_wait {α : Type} (s : mpmc_semaphore_queue α) :
    Option (α × mpmc_semaphore_queue α) :=
  if 0 < s.available then
    match s.q with
    | [] => none
    | x :: rest => some (x, ⟨rest, s.available - 1⟩)
  else
    none

/-- `pop_wait_for(rel_time)` (lines 147-160): `available.try_acquire_for`
consumes a permit if one becomes available before the timeout; with no
other thread that succeeds exactly when a permit is available now,
otherwise the call times out returning the empty optional with the state
untouched. On success, moves out `q.front()` and `q.pop()` under the lock;
the outer `none` marks `q.front()` on an empty buffer. -/
def mpmc_semaphore_queue.pop_wait_for {α : Type} (s : mpmc_semaphore_queue α) :
    Option (Option α × mpmc_semaphore_queue α) :=
  if 0 < s.available then
    match s.q with
    | [] => none
    | x :: rest => some (some x, ⟨rest, s.available - 1⟩)
  else
    some (none, s)

/-- `pop_wait_until(timeout_time)` (lines 170-183): same structure as
`pop_wait_for`, with `available.try_acquire_until` and an absolute
deadline. -/
def mpmc_semaphore_queue.pop_wait_until {α : Type} (s : mpmc_semaphore_queue α) :
    Option (Option α × mpmc_semaphore_queue α) :=
  if 0 < s.available then
    match s.q with
    | [] => none
    | x :: rest => some (some x, ⟨rest, s.available - 1⟩)
  else
    some (none, s)

/-- `empty()` (lines 190-193): `q.empty()` under a shared lock. -/
def mpmc_semaphore_queue.empty {α : Type} (s : mpmc_semaphore_queue α) : Bool :=
  s.q.isEmpty

/-- `size()` (lines 200-203): `q.size()` under a shared lock. -/
def mpmc_semaphore_queue.size {α : Type} (s : mpmc_semaphore_queue α) : Nat :=
  s.q.length

/-- A completed client history against one queue: the state reached, the
values the insertion calls put in (in call order) and the values the
removal calls got back (in call order). -/
structure trace_result (σ : Type) (α : Type) where
  state : σ
  pushed : List α
  popped : List α
deriving DecidableEq

/-- One public call on `mpmc_queue` (the arguments of an insertion reduced
to the element it produces). -/
inductive cv_op (α : Type) where
  | push (t : α)
  | push_move (t : α)
  | emplace (t : α)
  | try_pop
  | pop_wait
  | pop_wait_for
  | pop_wait_until
deriving DecidableEq

/-- Run one `mpmc_queue` call, extending the history; `none` when the call
does not complete (`pop_wait` on an empty buffer blocks forever). -/
def cv_step {α : Type} (r : trace_result (mpmc_queue α) α) (op : cv_op α) :
    Option (trace_result (mpmc_queue α) α) :=
  match op with
  | .push t => some ⟨r.state.push t, r.pushed ++ [t], r.popped⟩
  | .push_move t => some ⟨r.state.push_move t, r.pushed ++ [t], r.popped⟩
  | .emplace t => some ⟨r.state.emplace t, r.pushed ++ [t], r.popped⟩
  | .try_pop =>
      let p := r.state.try_pop
      some ⟨p.2, r.pushed, r.popped ++ p.1.toList⟩
  | .pop_wait =>
      match r.state.pop_wait with
      | none => none
      | some (x, s) => some ⟨s, r.pushed, r.popped ++ [x]⟩
  | .pop_wait_for =>
      let p := r.state.pop_wait_for
      some ⟨p.2, r.pushed, r.popped ++ p.1.toList⟩
  | .pop_wait_until =>
      let p := r.state.pop_wait_until
      some ⟨p.2, r.pushed, r.popped ++ p.1.toList⟩

/-- Run a sequence of `mpmc_queue` calls from a given history. -/
def cv_run_from {α : Type} (r : trace_result (mpmc_queue α) α) :
    List (cv_op α) → Option (trace_result (mpmc_queue α) α)
  | [] => some r
  | op :: ops => (cv_step r op).bind fun r2 => cv_run_from r2 ops

/-- Run a sequence of `mpmc_queue` calls on a freshly constructed queue. -/
def cv_run {α : Type} (ops : List (cv_op α)) : Option (trace_result (mpmc_queue α) α) :=
  cv_run_from ⟨mpmc_queue.init, [], []⟩ ops

/-- One public call on `mpmc_semaphore_queue`. -/
inductive sem_op (α : Type) where
  | push (t : α)
  | push_move (t : α)
  | emplace (t : α)
  | try_pop
  | pop_wait
  | pop_wait_for
  | pop_wait_until
deriving DecidableEq

/-- Run one `mpmc_semaphore_queue` call, extending the history; `none` when
the call does not complete normally (blocks forever, or hits the undefined
behavior of `q.front()` on an empty buffer). -/
def sem_step {α : Type} (r : trace_result (mpmc_semaphore_queue α) α) (op : sem_op α) :
    Option (trace_result (mpmc_semaphore_queue α) α) :=
  match op with
  | .push t => some ⟨r.state.push t, r.pushed ++ [t], r.popped⟩
  | .push_move t => some ⟨r.state.push_move t, r.pushed ++ [t], r.popped⟩
  | .emplace t => some ⟨r.state.emplace t, r.pushed ++ [t], r.popped⟩
  | .try_pop =>
      match r.state.try_pop with
      | none => none
      | some (o, s) => some ⟨s, r.pushed, r.popped ++ o.toList⟩
  | .pop_wait =>
      match r.state.pop_wait with
      | none => none
      | some (x, s) => some ⟨s, r.pushed, r.popped ++ [x]⟩
  | .pop_wait_for =>
      match r.state.pop_wait_for with
      | none => none
      | some (o, s) => some ⟨s, r.pushed, r.popped ++ o.toList⟩
  | .pop_wait_until =>
      match r.state.pop_wait_until with
      | none => none
      | some (o, s) => some ⟨s, r.pushed, r.popped ++ o.toList⟩

/-- Run a sequence of `mpmc_semaphore_queue` calls from a given history. -/
def sem_run_from {α : Type} (r : trace_result (mpmc_semaphore_queue α) α) :
    List (sem_op α) → Option (trace_result (mpmc_semaphore_queue α) α)
  | [] => some r
  | op :: ops => (sem_step r op).bind fun r2 => sem_run_from r2 ops

/-- Run a sequence of `mpmc_semaphore_queue` calls on a freshly constructed
queue. -/
def sem_run {α : Type} (ops : List (sem_op α)) :
    Option (trace_result (mpmc_semaphore_queue α) α) :=
  sem_run_from ⟨mpmc_semaphore_queue.init, [], []⟩ ops

/-- The lock/signal events a single `mpmc_queue` insertion call performs,
in program order: acquiring and releasing the exclusive lock, mutating the
buffer, and `cv.notify_one()` / `cv.notify_all()`. -/
inductive cv_event where
  | lock
  | unlock
  | mutate
  | notify_one
  | notify_all
deriving DecidableEq

/-- Event order of `push(const T&)` (mpmc_queue.hpp lines 74-82): the
`lock_guard` lives in an inner scope, so the lock is released before
`cv.notify_one()`. -/
def push_events : List cv_event :=
  [.lock, .mutate, .unlock, .notify_one]

/-- Event order of `push(T&&)` (lines 84-91): same inner-scope structure as
`push(const T&)` (the scopes are as written in the source; the element
expression inside is the ill-formed one noted at `mpmc_queue.push_move`). -/
def push_move_events : List cv_event :=
  [.lock, .mutate, .unlock, .notify_one]

/-- Event order of `emplace(...)` (lines 94-102): the `lock_guard` spans
the whole function body, and `cv.notify_one()` runs before the return, so
the signal happens while the lock is still held. -/
def emplace_events : List cv_event :=
  [.lock, .mutate, .notify_one, .unlock]

/-- Does some notify event of the trace happen at a point where the lock is
held? `depth` is the number of locks currently held. -/
def notifies_while_locked : List cv_event → Nat → Bool
  | [], _ => false
  | .lock :: es, depth => notifies_while_locked es (depth + 1)
  | .unlock :: es, depth => notifies_while_locked es (depth - 1)
  | .notify_one :: es, depth => decide (0 < depth) || notifies_while_locked es depth
  | .notify_all :: es, depth => decide (0 < depth) || notifies_while_locked es depth
  | .mutate :: es, depth => notifies_while_locked es depth

/-- How many single-waiter wake-ups a trace performs. -/
def notify_one_count (es : List cv_event) : Nat :=
  es.count .notify_one

example : cv_run [cv_op.push 1, cv_op.push 2, cv_op.try_pop] =
    some ⟨⟨[2]⟩, [1, 2], [1]⟩ := by decide

example : sem_run [sem_op.push 1, sem_op.pop_wait] =
    some ⟨⟨[], 0⟩, [1], [1]⟩ := by decide

example : sem_run [sem_op.push (5 : Nat), sem_op.try_pop, sem_op.try_pop, sem_op.try_pop] =
    none := by decide

/-- Each completed `mpmc_queue` call keeps the history invariant: the values
pushed so far are the values popped so far followed by the buffer contents. -/
lemma cv_step_inv {α : Type} {r r2 : trace_result (mpmc_queue α) α} {op : cv_op α}
    (h : r.pushed = r.popped ++ r.state.q) (hs : cv_step r op = some r2) :
    r2.pushed = r2.popped ++ r2.state.q := by
  cases op with
  | push t =>
      injection hs with hs
      subst hs
      simp [mpmc_queue.push, h]
  | push_move t =>
      injection hs with hs
      subst hs
      simp [mpmc_queue.push_move, h]
  | emplace t =>
      injection hs with hs
      subst hs
      simp [mpmc_queue.emplace, h]
  | try_pop =>
      simp only [cv_step] at hs
      injection hs with hs
      subst hs
      cases hq : r.state.q with
      | nil => simp [mpmc_queue.try_pop, hq, hq ▸ h]
      | cons x rest => simp [mpmc_queue.try_pop, hq, hq ▸ h]
  | pop_wait =>
      cases hq : r.state.q with
      | nil => simp [cv_step, mpmc_queue.pop_wait, hq] at hs
      | cons x rest =>
          simp only [cv_step, mpmc_queue.pop_wait, hq] at hs
          injection hs with hs
          subst hs
          simp [hq ▸ h]
  | pop_wait_for =>
      simp only [cv_step] at hs
      injection hs with hs
      subst hs
      cases hq : r.state.q with
      | nil => simp [mpmc_queue.pop_wait_for, hq, hq ▸ h]
      | cons x rest => simp [mpmc_queue.pop_wait_for, hq, hq ▸ h]
  | pop_wait_until =>
      simp only [cv_step] at hs
      injection hs with hs
      subst hs
      cases hq : r.state.q with
      | nil => simp [mpmc_queue.pop_wait_until, hq, hq ▸ h]
      | cons x rest => simp [mpmc_queue.pop_wait_until, hq, hq ▸ h]

/-- The history invariant holds at the end of every completed run of
`mpmc_queue` calls. -/
lemma cv_run_from_inv {α : Type} (ops : List (cv_op α)) :
    ∀ r r2 : trace_result (mpmc_queue α) α,
      r.pushed = r.popped ++ r.state.q → cv_run_from r ops = some r2 →
      r2.pushed = r2.popped ++ r2.state.q := by
  induction ops with
  | nil =>
      intro r r2 h hs
      simp only [cv_run_from] at hs
      injection hs with hs
      exact hs ▸ h
  | cons op ops ih =>
      intro r r2 h hs
      simp only [cv_run_from] at hs
      cases hstep : cv_step r op with
      | none => rw [hstep] at hs; simp at hs
      | some rmid =>
          rw [hstep] at hs
          simp only [Option.some_bind] at hs
          exact ih rmid r2 (cv_step_inv h hstep) hs

/-- Each completed `mpmc_semaphore_queue` call keeps the history invariant. -/
lemma sem_step_inv {α : Type} {r r2 : trace_result (mpmc_semaphore_queue α) α}
    {op : sem_op α}
    (h : r.pushed = r.popped ++ r.state.q) (hs : sem_step r op = some r2) :
    r2.pushed = r2.popped ++ r2.state.q := by
  cases op with
  | push t =>
      injection hs with hs
      subst hs
      simp [mpmc_semaphore_queue.push, h]
  | push_move t =>
      injection hs with hs
      subst hs
      simp [mpmc_semaphore_queue.push_move, h]
  | emplace t =>
      injection hs with hs
      subst hs
      simp [mpmc_semaphore_queue.emplace, h]
  | try_pop =>
      by_cases ha : 0 < r.state.available
      · simp only [sem_step, mpmc_semaphore_queue.try_pop, if_pos ha] at hs
        injection hs with hs
        subst hs
        simp [h]
      · cases hq : r.state.q with
        | nil => simp [sem_step, mpmc_semaphore_queue.try_pop, if_neg ha, hq] at hs
        | cons x rest =>
            simp only [sem_step, mpmc_semaphore_queue.try_pop, if_neg ha, hq] at hs
            injection hs with hs
            subst hs
            simp [hq ▸ h]
  | pop_wait =>
      by_cases ha : 0 < r.state.available
      · cases hq : r.state.q with
        | nil => simp [sem_step, mpmc_semaphore_queue.pop_wait, if_pos ha, hq] at hs
        | cons x rest =>
            simp only [sem_step, mpmc_semaphore_queue.pop_wait, if_pos ha, hq] at hs
            injection hs with hs
            subst hs
            simp [hq ▸ h]
      · simp [sem_step, mpmc_semaphore_queue.pop_wait, if_neg ha] at hs
  | pop_wait_for =>
      by_cases ha : 0 < r.state.available
      · cases hq : r.state.q with
        | nil => simp [sem_step, mpmc_semaphore_queue.pop_wait_for, if_pos ha, hq] at hs
        | cons x rest =>
            simp only [sem_step, mpmc_semaphore_queue.pop_wait_for, if_pos ha, hq] at hs
            injection hs with hs
            subst hs
            simp [hq ▸ h]
      · simp only [sem_step, mpmc_semaphore_queue.pop_wait_for, if_neg ha] at hs
        injection hs with hs
        subst hs
        simp [h]
  | pop_wait_until =>
      by_cases ha : 0 < r.state.available
      · cases hq : r.state.q with
        | nil => simp [sem_step, mpmc_semaphore_queue.pop_wait_until, if_pos ha, hq] at hs
        | cons x rest =>
            simp only [sem_step, mpmc_semaphore_queue.pop_wait_until, if_pos ha, hq] at hs
            injection hs with hs
            subst hs
            simp [hq ▸ h]
      · simp only [sem_step, mpmc_semaphore_queue.pop_wait_until, if_neg ha] at hs
        injection hs with hs
        subst hs
        simp [h]

/-- The history invariant holds at the end of every completed run of
`mpmc_semaphore_queue` calls. -/
lemma sem_run_from_inv {α : Type} (ops : List (sem_op α)) :
    ∀ r r2 : trace_result (mpmc_semaphore_queue α) α,
      r.pushed = r.popped ++ r.state.q → sem_run_from r ops = some r2 →
      r2.pushed = r2.popped ++ r2.state.q := by
  induction ops with
  | nil =>
      intro r r2 h hs
      simp only [sem_run_from] at hs
      injection hs with hs
      exact hs ▸ h
  | cons op ops ih =>
      intro r r2 h hs
      simp only [sem_run_from] at hs
      cases hstep : sem_step r op with
      | none => rw [hstep] at hs; simp at hs
      | some rmid =>
          rw [hstep] at hs
          simp only [Option.some_bind] at hs
          exact ih rmid r2 (sem_step_inv h hstep) hs

example : cv_run [cv_op.push (1 : Nat), cv_op.emplace 2, cv_op.pop_wait, cv_op.try_pop,
    cv_op.try_pop] = some ⟨⟨[]⟩, [1, 2], [1, 2]⟩ := by decide

example : sem_run [sem_op.push (1 : Nat), sem_op.emplace 2, sem_op.pop_wait,
    sem_op.pop_wait] = some ⟨⟨[], 0⟩, [1, 2], [1, 2]⟩ := by decide

/-- C1: false of the source. In `mpmc_semaphore_queue::try_pop` the permit
test is inverted: after a push (one permit, one buffered element) `try_pop`
acquires the permit successfully and yet returns the empty optional, and on
a state where acquisition fails but the buffer is non-empty it removes and
returns the front element. -/
theorem try_pop_returns_none_after_push :
    mpmc_semaphore_queue.try_pop
      (mpmc_semaphore_queue.push (mpmc_semaphore_queue.init : mpmc_semaphore_queue Nat) 42) =
      some (none, ⟨[42], 0⟩) ∧
    mpmc_semaphore_queue.try_pop (⟨[5], 0⟩ : mpmc_semaphore_queue Nat) =
      some (some 5, ⟨[], 0⟩) := by
  decide

/-- C2: the push-then-try_pop round trip holds for the condition-variable
queue, but on the semaphore queue the first `try_pop` after a push returns
the empty optional (consuming the permit) and only the second one returns
the pushed value -- the exact inversion of the claim. -/
theorem round_trip_both_variants :
    mpmc_queue.try_pop (mpmc_queue.push (mpmc_queue.init : mpmc_queue Nat) 7) =
      (some 7, ⟨[]⟩) ∧
    mpmc_queue.try_pop (⟨[]⟩ : mpmc_queue Nat) = (none, ⟨[]⟩) ∧
    mpmc_semaphore_queue.try_pop
      (mpmc_semaphore_queue.push (mpmc_semaphore_queue.init : mpmc_semaphore_queue Nat) 7) =
      some (none, ⟨[7], 0⟩) ∧
    mpmc_semaphore_queue.try_pop (⟨[7], 0⟩ : mpmc_semaphore_queue Nat) =
      some (some 7, ⟨[], 0⟩) := by
  decide

/-- C3: for every completed run of calls on a freshly constructed queue of
either variant, the pushed values are the popped values followed by the
buffer contents -- so the buffer length is (inserted) minus (removed) and
the popped values are an in-order prefix of the pushed values -- and every
successful removal (try_pop, pop_wait, pop_wait_for, pop_wait_until)
returns the head (the oldest element) of the buffer and leaves the tail. -/
theorem fifo_conservation_and_order :
    (∀ (α : Type) (ops : List (cv_op α)) (r : trace_result (mpmc_queue α) α),
        cv_run ops = some r →
        r.pushed = r.popped ++ r.state.q ∧
        r.pushed.length = r.popped.length + r.state.q.length ∧
        ∃ rest, r.pushed = r.popped ++ rest) ∧
    (∀ (α : Type) (ops : List (sem_op α)) (r : trace_result (mpmc_semaphore_queue α) α),
        sem_run ops = some r →
        r.pushed = r.popped ++ r.state.q ∧
        r.pushed.length = r.popped.length + r.state.q.length ∧
        ∃ rest, r.pushed = r.popped ++ rest) ∧
    (∀ (α : Type) (s s2 : mpmc_queue α) (x : α),
        s.try_pop = (some x, s2) → s.q.head? = some x ∧ s2.q = s.q.tail) ∧
    (∀ (α : Type) (s s2 : mpmc_queue α) (x : α),
        s.pop_wait = some (x, s2) → s.q.head? = some x ∧ s2.q = s.q.tail) ∧
    (∀ (α : Type) (s s2 : mpmc_queue α) (x : α),
        s.pop_wait_for = (some x, s2) → s.q.head? = some x ∧ s2.q = s.q.tail) ∧
    (∀ (α : Type) (s s2 : mpmc_queue α) (x : α),
        s.pop_wait_until = (some x, s2) → s.q.head? = some x ∧ s2.q = s.q.tail) ∧
    (∀ (α : Type) (s s2 : mpmc_semaphore_queue α) (x : α),
        s.try_pop = some (some x, s2) → s.q.head? = some x ∧ s2.q = s.q.tail) ∧
    (∀ (α : Type) (s s2 : mpmc_semaphore_queue α) (x : α),
        s.pop_wait = some (x, s2) → s.q.head? = some x ∧ s2.q = s.q.tail) ∧
    (∀ (α : Type) (s s2 : mpmc_semaphore_queue α) (x : α),
        s.pop_wait_for = some (some x, s2) → s.q.head? = some x ∧ s2.q = s.q.tail) ∧
    (∀ (α : Type) (s s2 : mpmc_semaphore_queue α) (x : α),
        s.pop_wait_until = some (some x, s2) → s.q.head? = some x ∧ s2.q = s.q.tail) := by
  refine ⟨?_, ?_, ?_, ?_, ?_, ?_, ?_, ?_, ?_, ?_⟩
  · intro α ops r hr
    have h := cv_run_from_inv ops ⟨mpmc_queue.init, [], []⟩ r rfl hr
    exact ⟨h, by simp [h], ⟨r.state.q, h⟩⟩
  · intro α ops r hr
    have h := sem_run_from_inv ops ⟨mpmc_semaphore_queue.init, [], []⟩ r rfl hr
    exact ⟨h, by simp [h], ⟨r.state.q, h⟩⟩
  · intro α s s2 x h
    cases hq : s.q with
    | nil => simp [mpmc_queue.try_pop, hq] at h
    | cons y rest =>
        simp only [mpmc_queue.try_pop, hq, Prod.mk.injEq, Option.some.injEq] at h
        obtain ⟨rfl, rfl⟩ := h
        simp [hq]
  · intro α s s2 x h
    cases hq : s.q with
    | nil => simp [mpmc_queue.pop_wait, hq] at h
    | cons y rest =>
        simp only [mpmc_queue.pop_wait, hq, Option.some.injEq, Prod.mk.injEq] at h
        obtain ⟨rfl, rfl⟩ := h
        simp [hq]
  · intro α s s2 x h
    cases hq : s.q with
    | nil => simp [mpmc_queue.pop_wait_for, hq] at h
    | cons y rest =>
        simp only [mpmc_queue.pop_wait_for, hq, Prod.mk.injEq, Option.some.injEq] at h
        obtain ⟨rfl, rfl⟩ := h
        simp [hq]
  · intro α s s2 x h
    cases hq : s.q with
    | nil => simp [mpmc_queue.pop_wait_until, hq] at h
    | cons y rest =>
        simp only [mpmc_queue.pop_wait_until, hq, Prod.mk.injEq, Option.some.injEq] at h
        obtain ⟨rfl, rfl⟩ := h
        simp [hq]
  · intro α s s2 x h
    by_cases ha : 0 < s.available
    · simp [mpmc_semaphore_queue.try_pop, if_pos ha] at h
    · cases hq : s.q with
      | nil => simp [mpmc_semaphore_queue.try_pop, if_neg ha, hq] at h
      | cons y rest =>
          simp only [mpmc_semaphore_queue.try_pop, if_neg ha, hq, Option.some.injEq,
            Prod.mk.injEq] at h
          obtain ⟨rfl, rfl⟩ := h
          simp [hq]
  · intro α s s2 x h
    by_cases ha : 0 < s.available
    · cases hq : s.q with
      | nil => simp [mpmc_semaphore_queue.pop_wait, if_pos ha, hq] at h
      | cons y rest =>
          simp only [mpmc_semaphore_queue.pop_wait, if_pos ha, hq, Option.some.injEq,
            Prod.mk.injEq] at h
          obtain ⟨rfl, rfl⟩ := h
          simp [hq]
    · simp [mpmc_semaphore_queue.pop_wait, if_neg ha] at h
  · intro α s s2 x h
    by_cases ha : 0 < s.available
    · cases hq : s.q with
      | nil => simp [mpmc_semaphore_queue.pop_wait_for, if_pos ha, hq] at h
      | cons y rest =>
          simp only [mpmc_semaphore_queue.pop_wait_for, if_pos ha, hq, Option.some.injEq,
            Prod.mk.injEq] at h
          obtain ⟨rfl, rfl⟩ := h
          simp [hq]
    · simp [mpmc_semaphore_queue.pop_wait_for, if_neg ha] at h
  · intro α s s2 x h
    by_cases ha : 0 < s.available
    · cases hq : s.q with
      | nil => simp [mpmc_semaphore_queue.pop_wait_until, if_pos ha, hq] at h
      | cons y rest =>
          simp only [mpmc_semaphore_queue.pop_wait_until, if_pos ha, hq, Option.some.injEq,
            Prod.mk.injEq] at h
          obtain ⟨rfl, rfl⟩ := h
          simp [hq]
    · simp [mpmc_semaphore_queue.pop_wait_until, if_neg ha] at h

/-- C3 witness: a concrete completed run on each variant, with the
conservation property instantiated from the theorem. -/
theorem fifo_conservation_and_order_witness :
    (∃ r : trace_result (mpmc_queue Nat) Nat,
      cv_run [cv_op.push 3, cv_op.push 5, cv_op.try_pop] = some r ∧
      r.pushed = r.popped ++ r.state.q) ∧
    (∃ r : trace_result (mpmc_semaphore_queue Nat) Nat,
      sem_run [sem_op.push 3, sem_op.pop_wait] = some r ∧
      r.pushed = r.popped ++ r.state.q) :=
  ⟨⟨⟨⟨[5]⟩, [3, 5], [3]⟩, by decide,
    (fifo_conservation_and_order.1 Nat [cv_op.push 3, cv_op.push 5, cv_op.try_pop]
      ⟨⟨[5]⟩, [3, 5], [3]⟩ (by decide)).1⟩,
   ⟨⟨⟨[], 0⟩, [3], [3]⟩, by decide,
    (fifo_conservation_and_order.2.1 Nat [sem_op.push 3, sem_op.pop_wait]
      ⟨⟨[], 0⟩, [3], [3]⟩ (by decide)).1⟩⟩

/-- C4: false of the source. After push(1) then try_pop() on a fresh
semaphore queue, both calls completed, no removal is in flight, yet the
buffer still holds one element while the semaphore holds zero permits: the
permit count no longer equals the count of unreserved buffered elements. -/
theorem permit_count_mismatch_after_try_pop :
    mpmc_semaphore_queue.try_pop
      (mpmc_semaphore_queue.push (mpmc_semaphore_queue.init : mpmc_semaphore_queue Nat) 1) =
      some (none, ⟨[1], 0⟩) ∧
    (⟨[1], 0⟩ : mpmc_semaphore_queue Nat).available ≠
      (⟨[1], 0⟩ : mpmc_semaphore_queue Nat).q.length := by
  decide

/-- C5: false of the source. On the semaphore queue, a try_pop that reports
"no element" is not effect-free: after push(5), try_pop returns the empty
optional yet consumes the permit, leaving a state different from the one it
found (buffer unchanged, permit count decremented). -/
theorem try_pop_none_consumes_permit :
    mpmc_semaphore_queue.try_pop
      (mpmc_semaphore_queue.push (mpmc_semaphore_queue.init : mpmc_semaphore_queue Nat) 5) =
      some (none, ⟨[5], 0⟩) ∧
    (⟨[5], 0⟩ : mpmc_semaphore_queue Nat) ≠
      mpmc_semaphore_queue.push mpmc_semaphore_queue.init 5 := by
  decide

/-- C7: `swap` hands each queue exactly the other's buffer, in order, and
swapping twice restores both queues; the free `storm::swap` is the member
swap. -/
theorem swap_exchanges_contents :
    ∀ (α : Type) (a b : mpmc_queue α),
      (mpmc_queue.swap a b).1.q = b.q ∧
      (mpmc_queue.swap a b).2.q = a.q ∧
      mpmc_queue.swap (mpmc_queue.swap a b).1 (mpmc_queue.swap a b).2 = (a, b) ∧
      storm_swap a b = mpmc_queue.swap a b := by
  intro α a b
  exact ⟨rfl, rfl, rfl, rfl⟩

/-- C8 counterexample: `emplace` signals the condition variable while the
lock is still held (its `lock_guard` spans the whole body and
`cv.notify_one()` runs before the return), so the claim that no insertion
signals under the lock is false. -/
theorem emplace_signals_while_locked :
    notifies_while_locked emplace_events 0 = true := by
  decide

/-- C8 amended: both push overloads release the lock before their single
`notify_one`, but `emplace` issues its single `notify_one` while the lock
is still held. -/
theorem insertion_signal_ordering :
    notifies_while_locked push_events 0 = false ∧
    notifies_while_locked push_move_events 0 = false ∧
    notifies_while_locked emplace_events 0 = true ∧
    notify_one_count push_events = 1 ∧
    notify_one_count push_move_events = 1 ∧
    notify_one_count emplace_events = 1 := by
  decide

/-- C9: for every state of either variant, `empty()` returns true exactly
when `size()` returns 0 (both read the same wrapped `std::queue`). -/
theorem empty_iff_size_zero :
    (∀ (α : Type) (s : mpmc_queue α), s.empty = true ↔ s.size = 0) ∧
    (∀ (α : Type) (s : mpmc_semaphore_queue α), s.empty = true ↔ s.size = 0) := by
  constructor
  · intro α s
    simp [mpmc_queue.empty, mpmc_queue.size, List.isEmpty_iff, List.length_eq_zero]
  · intro α s
    simp [mpmc_semaphore_queue.empty, mpmc_semaphore_queue.size, List.isEmpty_iff,
      List.length_eq_zero]

/-- C10: every insertion operation of either variant turns buffer `q` into
`q ++ [t]`: the existing elements are untouched and keep their order (the
new buffer starts with the old one) and exactly one element is added, at
the back. -/
theorem insert_appends_one_at_back :
    (∀ (α : Type) (s : mpmc_queue α) (t : α),
      (s.push t).q = s.q ++ [t] ∧
      (s.push_move t).q = s.q ++ [t] ∧
      (s.emplace t).q = s.q ++ [t] ∧
      (s.push t).q.take s.q.length = s.q ∧
      (s.push t).q.length = s.q.length + 1) ∧
    (∀ (α : Type) (s : mpmc_semaphore_queue α) (t : α),
      (s.push t).q = s.q ++ [t] ∧
      (s.push_move t).q = s.q ++ [t] ∧
      (s.emplace t).q = s.q ++ [t] ∧
      (s.push t).q.take s.q.length = s.q ∧
      (s.push t).q.length = s.q.length + 1) := by
  constructor
  · intro α s t
    refine ⟨rfl, rfl, rfl, ?_, ?_⟩
    · simp [mpmc_queue.push, List.take_left]
    · simp [mpmc_queue.push]
  · intro α s t
    refine ⟨rfl, rfl, rfl, ?_, ?_⟩
    · simp [mpmc_semaphore_queue.push, List.take_left]
    · simp [mpmc_semaphore_queue.push]
